import Mathlib

/-!
Shallow embedding of the core data structures and algorithms of the
fasthtcacheclean disk-cache janitor, together with proofs of spec-level
claims about them.

Modelling conventions:
* SystemTime is an integer count of time units since the Unix epoch
  (microseconds for header expiry values, nanoseconds where sub-second
  precision of filesystem timestamps matters).
* A Rust BinaryHeap is modelled by the ascending-sorted list of its
  elements; peek and pop act on the last list element, the maximum.
* Filesystem effects are modelled by passing the relevant metadata and the
  outcome of the removal syscall as explicit parameters, and returning
  whether a removal was attempted next to the returned Result value.
* Byte strings are lists of naturals below 256; the host is taken to be a
  little-endian 64-bit platform (4-byte c_int, 8-byte usize), matching the
  native-endian reads in the source.
-/

set_option maxRecDepth 10000

namespace Fhcc

/-! ## Data model: formats, headers, timestamps -/

/-- SystemTime modelled as an integer count of time units since the Unix epoch. -/
abbrev SystemTime := Int

/-- Format tag of an Apache cache header file (src/apache_cache.rs, enum Format):
Vary = 5, Disk = 6. -/
inductive Format where
| vary
| disk
deriving DecidableEq

/-- Basic Apache cache header file information (src/apache_cache.rs, struct Header). -/
structure Header where
  format : Format
  expiry : SystemTime
deriving DecidableEq

/-! ## CachePriorityQueue (src/cache_priority_queue.rs) -/

/-- A priority queue that keeps a limited amount of items
(src/cache_priority_queue.rs, struct CachePriorityQueue).  The BinaryHeap
field is modelled by the ascending-sorted list of its elements. -/
structure CachePriorityQueue (α : Type) where
  heap : List α
  limit : Nat
deriving DecidableEq

namespace CachePriorityQueue

/-- Number of stored items (src/cache_priority_queue.rs, len). -/
def len {α : Type} (q : CachePriorityQueue α) : Nat :=
  q.heap.length

/-- Remove all items (src/cache_priority_queue.rs, clear). -/
def clear {α : Type} (q : CachePriorityQueue α) : CachePriorityQueue α :=
  ⟨[], q.limit⟩

/-- Create an empty queue that keeps at most limit items
(src/cache_priority_queue.rs, new). -/
def new {α : Type} (limit : Nat) : CachePriorityQueue α :=
  ⟨[], limit⟩

/-- Create an empty queue with a preallocated capacity
(src/cache_priority_queue.rs, with_capacity).  The source asserts
capacity <= limit and panics otherwise; the panic is modelled as none. -/
def with_capacity {α : Type} (capacity limit : Nat) : Option (CachePriorityQueue α) :=
  if capacity ≤ limit then some ⟨[], limit⟩ else none

/-- Push an item (src/cache_priority_queue.rs, push).  If the limit is
reached, the new item is dropped when it is strictly larger than the
current maximum (the last element of the sorted list, i.e. what peek
returns), otherwise the maximum is popped before inserting. -/
def push {α : Type} [LinearOrder α] (q : CachePriorityQueue α) (item : α) : CachePriorityQueue α :=
  if q.limit ≤ q.heap.length then
    match q.heap.getLast? with
    | some element =>
      if element < item then q
      else ⟨List.orderedInsert (· ≤ ·) item q.heap.dropLast, q.limit⟩
    | none => ⟨List.orderedInsert (· ≤ ·) item q.heap, q.limit⟩
  else ⟨List.orderedInsert (· ≤ ·) item q.heap, q.limit⟩

/-- Consume the queue and return its elements in ascending order
(src/cache_priority_queue.rs, into_sorted_vec).  The model keeps the heap
sorted ascending, so this is the heap itself. -/
def into_sorted_vec {α : Type} (q : CachePriorityQueue α) : List α :=
  q.heap

end CachePriorityQueue

/-- One mutating queue operation, for stating the length invariant. -/
inductive QueueOp (α : Type) where
| push (x : α)
| clear

/-- Apply one queue operation. -/
def applyQueueOp {α : Type} [LinearOrder α] (q : CachePriorityQueue α) :
    QueueOp α → CachePriorityQueue α
| QueueOp.push x => q.push x
| QueueOp.clear => q.clear

/-! ## CacheFileInfo and its ordering (src/cache_file_info.rs) -/

/-- Basic information about a cache file entry
(src/cache_file_info.rs, struct CacheFileInfo). -/
structure CacheFileInfo where
  header_path : String
  header_info : Header
  modified : SystemTime
  accessed : SystemTime
deriving DecidableEq

/-- Whether the entry has the Vary format (src/cache_file_info.rs, is_vary). -/
def CacheFileInfo.is_vary (fi : CacheFileInfo) : Bool :=
  fi.header_info.format = Format.vary

/-- Chronological ordering of cache entries
(src/cache_file_info.rs, impl Ord for CacheFileInfo, cmp).
First orders by expiry or mtime (whatever is later), then by mtime or
atime (whatever is later), then by mtime; ties are broken by the path. -/
def CacheFileInfo.cmp (a b : CacheFileInfo) : Ordering :=
  match compare (max a.header_info.expiry a.modified) (max b.header_info.expiry b.modified),
      compare (max a.accessed a.modified) (max b.accessed b.modified),
      compare a.modified b.modified with
  | Ordering.eq, Ordering.eq, Ordering.eq => compare a.header_path b.header_path
  | Ordering.eq, Ordering.eq, result => result
  | Ordering.eq, result, _ => result
  | result, _, _ => result

/-- The ordering described by the spec: lexicographic comparison of the
tuple (max(expiry, modified), max(accessed, modified), modified,
header_path), earliest difference wins.  Stated with Ordering.then, which
keeps the first comparison unless it is an exact tie. -/
def CacheFileInfo.cmpSpecTuple (a b : CacheFileInfo) : Ordering :=
  (compare (max a.header_info.expiry a.modified) (max b.header_info.expiry b.modified)).then
    ((compare (max a.accessed a.modified) (max b.accessed b.modified)).then
      ((compare a.modified b.modified).then (compare a.header_path b.header_path)))

/-! ## Scanner header-file branch (src/lib.rs, scan_folder) -/

/-- Protection test for the sibling vary directory of a header
(src/lib.rs, scan_folder): the path exists, its metadata reads as a
directory, and nlink > 2 (i.e. it has subdirectories). -/
def vdirProtects (vdirExists vdirIsDir : Bool) (vdirNlink : Nat) : Bool :=
  vdirExists && vdirIsDir && decide (2 < vdirNlink)

/-- Observable actions of the header-file branch of scan_folder
(src/lib.rs, lines 284-316) for a header whose CacheFileInfo was read
successfully: whether removal of the sibling data file is attempted, and
whether the entry is sent through the channel. -/
structure HeaderBranchActions where
  dataDeleteAttempted : Bool
  sent : Bool
deriving DecidableEq

/-- Header-file branch of scan_folder (src/lib.rs, lines 284-316), given
the entry format, the in_vary and desperate flags and the protection state
of the sibling vary directory.  When not inside a vary directory and the
format is Vary, the orphaned sibling data file is deleted; then, unless in
desperate mode, the entry is withheld from the channel while the vary
directory still has subdirectories. -/
def scanHeaderBranch (format : Format) (in_vary desperate : Bool)
    (vdirProtect : Bool) : HeaderBranchActions :=
  if !in_vary && (format = Format.vary : Bool) then
    if !desperate && vdirProtect then ⟨true, false⟩
    else ⟨true, true⟩
  else ⟨false, true⟩

/-! ## Header parsing (src/apache_cache.rs, parse) -/

/-- Little-endian interpretation of a list of bytes as a natural number. -/
def bytesToNatLE (bs : List Nat) : Nat :=
  bs.foldr (fun b acc => b + 256 * acc) 0

/-- Size of a C int on the modelled 64-bit host. -/
def sizeofCInt : Nat := 4

/-- Size of a usize on the modelled 64-bit host. -/
def sizeofUsize : Nat := 8

/-- Length of the buffer read for a Disk-format header after the tag
(src/apache_cache.rs, parse): sizeof(c_int) + 2 * sizeof(usize) + 2 * 8. -/
def diskBufferLen : Nat := sizeofCInt + sizeofUsize * 2 + 8 * 2

/-- Errors of the modelled header parser: an end-of-file style read error
from read_exact, or the unknown-format error carrying the offending tag. -/
inductive ParseError where
| eof
| unknownFormat (tag : Nat)
deriving DecidableEq

/-- Model of Read::read_exact on a byte list: return the n bytes read and
the remaining input, or fail when fewer than n bytes are left. -/
def read_exact (n : Nat) (bs : List Nat) : Except ParseError (List Nat × List Nat) :=
  if n ≤ bs.length then Except.ok (bs.take n, bs.drop n) else Except.error ParseError.eof

/-- TryFrom u32 for Format (src/apache_cache.rs): 5 is Vary, 6 is Disk,
anything else is the unknown-format error. -/
def formatTryFrom (value : Nat) : Except ParseError Format :=
  if value = 5 then Except.ok Format.vary
  else if value = 6 then Except.ok Format.disk
  else Except.error (ParseError.unknownFormat value)

/-- Read the format and expiration time from an Apache cache header file
(src/apache_cache.rs, parse).  Reads a 4-byte native-endian u32 tag; for
Disk it reads diskBufferLen further bytes and takes the last 8 as the
native-endian u64 microsecond expiry, for Vary it reads 8 further bytes
directly.  The expiry is UNIX_EPOCH plus that many microseconds, i.e. the
microsecond count itself in this model.  read_expiration_time in
src/apache_cache_header.rs performs the identical computation and returns
only the expiry. -/
def parse (bs : List Nat) : Except ParseError Header :=
  match read_exact 4 bs with
  | Except.error e => Except.error e
  | Except.ok (buffer, rest) =>
    match formatTryFrom (bytesToNatLE buffer) with
    | Except.error e => Except.error e
    | Except.ok Format.disk =>
      match read_exact diskBufferLen rest with
      | Except.error e => Except.error e
      | Except.ok (buffer2, _) =>
        Except.ok ⟨Format.disk, (bytesToNatLE (buffer2.drop (diskBufferLen - 8)) : Int)⟩
    | Except.ok Format.vary =>
      match read_exact 8 rest with
      | Except.error e => Except.error e
      | Except.ok (buffer2, _) =>
        Except.ok ⟨Format.vary, (bytesToNatLE buffer2 : Int)⟩

/-! ## Stats (src/stats.rs) -/

/-- Statistic results (src/stats.rs, struct Stats). -/
structure Stats where
  deleted : Nat
  deleted_folders : Nat
  failed : Nat
deriving DecidableEq

/-- Count a folder-deletion result (src/stats.rs, count_folder):
Ok(true) increments deleted_folders, Ok(false) changes nothing and an
error increments failed. -/
def Stats.count_folder {ε : Type} (st : Stats) (r : Except ε Bool) : Stats :=
  match r with
  | Except.ok true => ⟨st.deleted, st.deleted_folders + 1, st.failed⟩
  | Except.ok false => st
  | Except.error _ => ⟨st.deleted, st.deleted_folders, st.failed + 1⟩

/-! ## Recency-guarded deletion (src/lib.rs) -/

/-- Filesystem metadata of one directory entry, as used by the deletion
guards.  Timestamps are nanoseconds since the Unix epoch. -/
structure Metadata where
  is_file : Bool
  is_dir : Bool
  nlink : Nat
  modified : Int
  accessed : Int
deriving DecidableEq

/-- SystemTime::duration_since as used on timestamps: the elapsed
duration in nanoseconds, failing (none) when the timestamp lies in the
future of now. -/
def duration_since (now ts : Int) : Option Nat :=
  if ts ≤ now then some (now - ts).toNat else none

/-- Duration::as_secs for a duration given in nanoseconds. -/
def durationAsSecs (nanos : Nat) : Nat :=
  nanos / 1000000000

/-- The timestamp ts is old enough at now for a threshold of the given
seconds: duration_since succeeds and its as_secs reaches the threshold. -/
abbrev oldEnough (now ts : Int) (seconds : Nat) : Prop :=
  ts ≤ now ∧ seconds ≤ durationAsSecs (now - ts).toNat

/-- The raw OS error code ENOTEMPTY on Linux. -/
def ENOTEMPTY : Int := 39

/-- Outcome of the removal syscall, supplied to the model as a parameter:
success or failure with a raw OS error code. -/
inductive RmOutcome where
| ok
| err (code : Int)
deriving DecidableEq

/-- Result of a guarded deletion: whether the removal syscall was
attempted, and the value returned by the function (errors carry the raw
OS error code). -/
structure DeleteOutcome where
  attempted : Bool
  result : Except Int Bool

/-- Delete a file if it was not modified or accessed recently
(src/lib.rs, delete_file_if_not_recent).  Non-files and entries whose
mtime or atime is in the future or newer than the threshold are left
alone with Ok(false); otherwise remove_file is attempted and its error,
if any, is returned. -/
def delete_file_if_not_recent (md : Metadata) (now : Int) (seconds : Nat)
    (rm : RmOutcome) : DeleteOutcome :=
  if md.is_file then
    match duration_since now md.modified with
    | some duration =>
      if seconds ≤ durationAsSecs duration then
        match duration_since now md.accessed with
        | some duration2 =>
          if seconds ≤ durationAsSecs duration2 then
            match rm with
            | RmOutcome.ok => ⟨true, Except.ok true⟩
            | RmOutcome.err e => ⟨true, Except.error e⟩
          else ⟨false, Except.ok false⟩
        | none => ⟨false, Except.ok false⟩
      else ⟨false, Except.ok false⟩
    | none => ⟨false, Except.ok false⟩
  else ⟨false, Except.ok false⟩

/-- Delete an empty folder if it was not modified or accessed recently
(src/lib.rs, delete_folder_if_not_recent).  Non-directories, directories
with subfolders (nlink > 2) and recently touched or future-dated
directories are left alone with Ok(false); otherwise remove_dir is
attempted, an ENOTEMPTY failure becomes Ok(false) and any other failure
is returned as an error. -/
def delete_folder_if_not_recent (md : Metadata) (now : Int) (seconds : Nat)
    (rm : RmOutcome) : DeleteOutcome :=
  if md.is_dir then
    if 2 < md.nlink then ⟨false, Except.ok false⟩
    else
      match duration_since now md.modified with
      | some duration =>
        if seconds ≤ durationAsSecs duration then
          match duration_since now md.accessed with
          | some duration2 =>
            if seconds ≤ durationAsSecs duration2 then
              match rm with
              | RmOutcome.ok => ⟨true, Except.ok true⟩
              | RmOutcome.err e =>
                if e = ENOTEMPTY then ⟨true, Except.ok false⟩
                else ⟨true, Except.error e⟩
            else ⟨false, Except.ok false⟩
          | none => ⟨false, Except.ok false⟩
        else ⟨false, Except.ok false⟩
      | none => ⟨false, Except.ok false⟩
  else ⟨false, Except.ok false⟩

/-! ## Parallel dispatch chunking (src/lib.rs, process_folder_parallel) -/

/-- Chunk size used to partition the shuffled top-level folder list
(src/lib.rs, line 183): folders.len() / config.jobs + 1 with integer
(floor) division. -/
def chunk_size (foldersLen jobs : Nat) : Nat :=
  foldersLen / jobs + 1

/-- Ceiling division on naturals, used to state the spec reading of the
chunk size and to count the chunks a partition produces. -/
def ceilDiv (a b : Nat) : Nat :=
  (a + b - 1) / b

/-! ## SizeSpec and an exact model of the f64 arithmetic it uses
(src/size_spec.rs) -/

/-- An exact (unreduced) fraction num / den with den intended positive.
Used to model IEEE-754 binary64 values and computations exactly, without
rational normalisation. -/
structure Fr where
  num : Int
  den : Nat

/-- The integer n as a fraction. -/
def Fr.ofInt (n : Int) : Fr := ⟨n, 1⟩

/-- Negation of a fraction. -/
def Fr.neg (a : Fr) : Fr := ⟨-a.num, a.den⟩

/-- Product of two fractions. -/
def Fr.mul (a b : Fr) : Fr := ⟨a.num * b.num, a.den * b.den⟩

/-- Quotient of two fractions (second one positive in all uses). -/
def Fr.div (a b : Fr) : Fr :=
  if 0 ≤ b.num then ⟨a.num * (b.den : Int), a.den * b.num.toNat⟩
  else ⟨-(a.num * (b.den : Int)), a.den * (-b.num).toNat⟩

/-- Boolean comparison a <= b by cross multiplication. -/
def Fr.leb (a b : Fr) : Bool := a.num * (b.den : Int) ≤ b.num * (a.den : Int)

/-- Boolean comparison a < b by cross multiplication. -/
def Fr.ltb (a b : Fr) : Bool := a.num * (b.den : Int) < b.num * (a.den : Int)

/-- Floor of a fraction (floor division of the numerator). -/
def Fr.floor (a : Fr) : Int := a.num.fdiv (a.den : Int)

/-- The power 2 ^ e as a fraction, for any integer e. -/
def Fr.twoPow (e : Int) : Fr :=
  if 0 ≤ e then ⟨2 ^ e.toNat, 1⟩ else ⟨1, 2 ^ (-e).toNat⟩

/-- Round a fraction to the nearest integer, ties to even. -/
def roundHalfEven (a : Fr) : Int :=
  let n := a.num.fdiv (a.den : Int)
  let r := a.num - n * (a.den : Int)
  if 2 * r < (a.den : Int) then n
  else if (a.den : Int) < 2 * r then n + 1
  else if n % 2 = 0 then n else n + 1

/-- Fuel-bounded upward search for the binade exponent: the largest e with
2 ^ e <= q, starting from an e already known to satisfy 2 ^ e <= q. -/
def findExpUp : Nat → Fr → Int → Int
| 0, _, e => e
| fuel + 1, q, e => if Fr.leb (Fr.twoPow (e + 1)) q then findExpUp fuel q (e + 1) else e

/-- Fuel-bounded downward search for the binade exponent: decrease e until
2 ^ e <= q, starting from an e already known to satisfy q < 2 ^ (e + 1). -/
def findExpDown : Nat → Fr → Int → Int
| 0, _, e => e
| fuel + 1, q, e => if Fr.ltb q (Fr.twoPow e) then findExpDown fuel q (e - 1) else e

/-- Binade exponent of a positive fraction: the e with 2 ^ e <= q < 2 ^ (e + 1).
The fuel 1100 covers the whole normal range of binary64. -/
def f64exp (q : Fr) : Int :=
  if Fr.leb (Fr.ofInt 1) q then findExpUp 1100 q 0 else findExpDown 1100 q 0

/-- Round a positive fraction to the nearest IEEE-754 binary64 value
(round to nearest, ties to even), exactly, as a fraction.  Faithful for
results in the normal finite range of binary64; the uses below stay well
inside it. -/
def round64pos (q : Fr) : Fr :=
  let e := f64exp q
  let m := roundHalfEven (Fr.mul q (Fr.twoPow (52 - e)))
  Fr.mul (Fr.ofInt m) (Fr.twoPow (e - 52))

/-- Round a fraction to the nearest IEEE-754 binary64 value. -/
def round64 (q : Fr) : Fr :=
  if q.num = 0 then Fr.ofInt 0
  else if q.num < 0 then Fr.neg (round64pos (Fr.neg q)) else round64pos q

/-- The Rust cast expression f as u64 for a finite double f: truncate
toward zero and saturate into the u64 range. -/
def f64AsU64 (q : Fr) : Nat :=
  if q.num ≤ 0 then 0 else min (2 ^ 64 - 1) q.floor.toNat

/-- The Rust cast expression t as f64 for a u64 value t: the nearest
double. -/
def u64AsF64 (t : Nat) : Fr := round64 (Fr.ofInt (t : Int))

/-- Representation of a user-specified size limit
(src/size_spec.rs, enum SizeSpec).  The percentage payload is the exact
value of the stored f64 (assumed binary64-representable). -/
inductive SizeSpec where
| Percentage (n : Fr)
| Absolute (n : Nat)

/-- Return the absolute value when given the available total
(src/size_spec.rs, value).  The percentage branch evaluates
n / 100.0 * (total as f64) in IEEE-754 binary64 arithmetic, each
operation correctly rounded, then casts to u64. -/
def SizeSpec.value : SizeSpec → Nat → Nat
| SizeSpec.Percentage n, total =>
  f64AsU64 (round64 (Fr.mul (round64 (Fr.div n (Fr.ofInt 100))) (u64AsF64 total)))
| SizeSpec.Absolute n, _ => n

/-! ## Theorems about CachePriorityQueue (claims C1 and C4) -/

section QueueProofs

variable {α : Type} [LinearOrder α]

lemma orderedInsert_append_single (t : List α) (m x : α) (hx : x ≤ m) :
    List.orderedInsert (· ≤ ·) x (t ++ [m]) = List.orderedInsert (· ≤ ·) x t ++ [m] := by
  induction t with
  | nil => simp [List.orderedInsert, hx]
  | cons y ys ih =>
    by_cases h : x ≤ y
    · simp [List.orderedInsert, h]
    · simp [List.orderedInsert, h, ih]

lemma orderedInsert_of_max_lt (s : List α) (x : α) (h : ∀ y ∈ s, ¬ x ≤ y) :
    List.orderedInsert (· ≤ ·) x s = s ++ [x] := by
  induction s with
  | nil => simp
  | cons y ys ih =>
    have hy : ¬ x ≤ y := h y (List.mem_cons_self y ys)
    simp only [List.orderedInsert, if_neg hy, List.cons_append]
    rw [ih (fun z hz => h z (List.mem_cons_of_mem y hz))]

lemma take_orderedInsert_take :
    ∀ (t : List α) (K : Nat) (x : α),
      List.take K (List.orderedInsert (· ≤ ·) x (List.take K t))
        = List.take K (List.orderedInsert (· ≤ ·) x t) := by
  intro t
  induction t with
  | nil => intro K x; rw [List.take_nil]
  | cons y ys ih =>
    intro K x
    cases K with
    | zero => rfl
    | succ n =>
      rw [List.take_succ_cons]
      by_cases h : x ≤ y
      · simp only [List.orderedInsert, if_pos h, List.take_succ_cons]
        have hmin : List.take n (y :: List.take n ys) = List.take n (y :: ys) := by
          rw [show y :: List.take n ys = List.take (n + 1) (y :: ys) from rfl, List.take_take]
          rw [min_eq_left (Nat.le_succ n)]
        rw [hmin]
      · simp only [List.orderedInsert, if_neg h, List.take_succ_cons]
        rw [ih n x]

lemma sorted_mem_le_getLast (s : List α) (h : s ≠ [])
    (hs : List.Sorted (· ≤ ·) s) (y : α) (hy : y ∈ s) : y ≤ s.getLast h := by
  have hsplit := List.dropLast_append_getLast h
  rw [← hsplit] at hs hy
  have hp : List.Pairwise (· ≤ ·) (s.dropLast ++ [s.getLast h]) := hs
  rcases List.mem_append.mp hy with h1 | h1
  · exact (List.pairwise_append.mp hp).2.2 y h1 (s.getLast h) (List.mem_singleton.mpr rfl)
  · exact le_of_eq (List.mem_singleton.mp h1)

lemma push_limit (q : CachePriorityQueue α) (x : α) : (q.push x).limit = q.limit := by
  unfold CachePriorityQueue.push
  split
  · cases hq : q.heap.getLast? with
    | none => simp [hq]
    | some m => by_cases hlt : m < x <;> simp [hq, hlt]
  · rfl

lemma push_full_eq (K : Nat) (hK : 1 ≤ K) (s : List α) (hs : List.Sorted (· ≤ ·) s)
    (hlen : s.length ≤ K) (x : α) :
    CachePriorityQueue.push ⟨s, K⟩ x
      = ⟨List.take K (List.orderedInsert (· ≤ ·) x s), K⟩ := by
  rcases lt_or_eq_of_le hlen with hlt | heq
  · have hcond : ¬ K ≤ s.length := by omega
    unfold CachePriorityQueue.push
    simp only [hcond, if_false]
    rw [List.take_of_length_le]
    rw [List.orderedInsert_length]
    omega
  · have hne : s ≠ [] := by
      intro hnil
      rw [hnil] at heq
      simp at heq
      omega
    have hcond : K ≤ s.length := le_of_eq heq.symm
    have hlast : s.getLast? = some (s.getLast hne) := List.getLast?_eq_getLast s hne
    unfold CachePriorityQueue.push
    simp only [hcond, if_true, hlast]
    by_cases hgt : s.getLast hne < x
    · simp only [hgt, if_true]
      have hins : List.orderedInsert (· ≤ ·) x s = s ++ [x] := by
        apply orderedInsert_of_max_lt
        intro y hy hxy
        exact absurd (le_trans hxy (sorted_mem_le_getLast s hne hs y hy)) (not_le.mpr hgt)
      rw [hins, ← heq, List.take_left]
    · simp only [hgt, if_false]
      have hx : x ≤ s.getLast hne := le_of_not_lt hgt
      conv_rhs => rw [← List.dropLast_append_getLast hne]
      rw [orderedInsert_append_single _ _ _ hx]
      have hlen2 : (List.orderedInsert (· ≤ ·) x s.dropLast).length = K := by
        rw [List.orderedInsert_length, List.length_dropLast]
        have : 0 < s.length := List.length_pos.mpr hne
        omega
      rw [← hlen2, List.take_left]

lemma foldl_push_take (K : Nat) (hK : 1 ≤ K) :
    ∀ (l t : List α), List.Sorted (· ≤ ·) t →
      List.foldl CachePriorityQueue.push (⟨List.take K t, K⟩ : CachePriorityQueue α) l
        = ⟨List.take K (List.foldl (fun acc x => List.orderedInsert (· ≤ ·) x acc) t l), K⟩ := by
  intro l
  induction l with
  | nil => intro t ht; rfl
  | cons x xs ih =>
    intro t ht
    have hsortTake : List.Sorted (· ≤ ·) (List.take K t) :=
      List.Pairwise.sublist (List.take_sublist K t) ht
    have hstep : CachePriorityQueue.push (⟨List.take K t, K⟩ : CachePriorityQueue α) x
        = ⟨List.take K (List.orderedInsert (· ≤ ·) x t), K⟩ := by
      rw [push_full_eq K hK (List.take K t) hsortTake (List.length_take_le K t) x]
      rw [take_orderedInsert_take t K x]
    rw [List.foldl_cons, hstep, ih (List.orderedInsert (· ≤ ·) x t)
      (List.Sorted.orderedInsert x t ht)]
    rfl

lemma foldl_orderedInsert_perm :
    ∀ (l acc : List α),
      (List.foldl (fun acc x => List.orderedInsert (· ≤ ·) x acc) acc l).Perm (l ++ acc) := by
  intro l
  induction l with
  | nil => intro acc; simp
  | cons x xs ih =>
    intro acc
    have h1 := ih (List.orderedInsert (· ≤ ·) x acc)
    have h2 : (xs ++ List.orderedInsert (· ≤ ·) x acc).Perm (xs ++ (x :: acc)) :=
      List.Perm.append_left xs (List.perm_orderedInsert _ x acc)
    have h3 : (xs ++ (x :: acc)).Perm (x :: (xs ++ acc)) := List.perm_middle
    exact (h1.trans h2).trans h3

lemma foldl_orderedInsert_sorted :
    ∀ (l acc : List α), List.Sorted (· ≤ ·) acc →
      List.Sorted (· ≤ ·)
        (List.foldl (fun acc x => List.orderedInsert (· ≤ ·) x acc) acc l) := by
  intro l
  induction l with
  | nil => intro acc h; exact h
  | cons x xs ih => intro acc h; exact ih _ (List.Sorted.orderedInsert x acc h)

lemma foldl_orderedInsert_eq_insertionSort (l : List α) :
    List.foldl (fun acc x => List.orderedInsert (· ≤ ·) x acc) [] l
      = List.insertionSort (· ≤ ·) l := by
  have hperm :
      (List.foldl (fun acc x => List.orderedInsert (· ≤ ·) x acc) [] l).Perm
        (List.insertionSort (· ≤ ·) l) := by
    have hp := foldl_orderedInsert_perm l ([] : List α)
    rw [List.append_nil] at hp
    exact hp.trans (List.perm_insertionSort _ l).symm
  exact @List.eq_of_perm_of_sorted α (· ≤ ·) inferInstance _ _ hperm
    (foldl_orderedInsert_sorted l [] List.sorted_nil) (List.sorted_insertionSort _ l)

end QueueProofs

/-- C1: for every limit K >= 1 and every sequence of items pushed into a
CachePriorityQueue created with limit K, into_sorted_vec returns exactly
the K smallest items of the sequence under the element order (all items
when fewer than K were pushed), sorted ascending.  The right-hand side is
the first K elements of the fully sorted input. -/
theorem cachePriorityQueue_into_sorted_vec_k_smallest {α : Type} [LinearOrder α]
    (K : Nat) (hK : 1 ≤ K) (l : List α) :
    (List.foldl CachePriorityQueue.push (CachePriorityQueue.new K) l).into_sorted_vec
      = List.take K (List.insertionSort (· ≤ ·) l) := by
  have h0 := foldl_push_take K hK l ([] : List α) List.sorted_nil
  rw [List.take_nil] at h0
  show (List.foldl CachePriorityQueue.push (⟨[], K⟩ : CachePriorityQueue α) l).heap
      = List.take K (List.insertionSort (· ≤ ·) l)
  rw [h0, foldl_orderedInsert_eq_insertionSort]

/-- Witness for C1 at a concrete input: limit 2, pushes 3, 1, 2, 0. -/
theorem cachePriorityQueue_into_sorted_vec_k_smallest_witness :
    1 ≤ 2 ∧ (List.foldl CachePriorityQueue.push (CachePriorityQueue.new 2)
        ([3, 1, 2, 0] : List Nat)).into_sorted_vec = [0, 1] :=
  ⟨by decide,
    (cachePriorityQueue_into_sorted_vec_k_smallest 2 (by decide) [3, 1, 2, 0]).trans
      (by decide)⟩

/-- C4 counterexample: a queue created with limit K = 0 reaches length 1
after a single push, so len is not bounded by K in the K = 0 edge case.
With an empty heap peek returns None, pop is a no-op, and the new item is
pushed unconditionally. -/
theorem cachePriorityQueue_limit_zero_len_counterexample :
    ((CachePriorityQueue.new 0 : CachePriorityQueue Nat).push 0).len = 1
    ∧ ¬ ((CachePriorityQueue.new 0 : CachePriorityQueue Nat).push 0).len ≤ 0 := by
  decide

section QueueLenProofs

variable {α : Type} [LinearOrder α]

lemma push_len_le_max (q : CachePriorityQueue α) (x : α)
    (h : q.heap.length ≤ max q.limit 1) :
    (q.push x).heap.length ≤ max q.limit 1 := by
  unfold CachePriorityQueue.push
  by_cases hfull : q.limit ≤ q.heap.length
  · simp only [hfull, if_true]
    cases hq : q.heap.getLast? with
    | none =>
      have hnil : q.heap = [] := List.getLast?_eq_none_iff.mp hq
      simp only [List.orderedInsert_length, hnil, List.length_nil]
      exact le_max_right _ _
    | some m =>
      by_cases hlt : m < x
      · simp only [hlt, if_true]
        exact h
      · simp only [hlt, if_false, List.orderedInsert_length, List.length_dropLast]
        have hne : q.heap ≠ [] := by
          intro hnil
          rw [hnil] at hq
          exact Option.noConfusion hq
        have hpos : 0 < q.heap.length := List.length_pos.mpr hne
        calc q.heap.length - 1 + 1 = q.heap.length := by omega
        _ ≤ max q.limit 1 := h
  · simp only [hfull, if_false, List.orderedInsert_length]
    have hle : q.heap.length + 1 ≤ q.limit := by omega
    exact le_trans hle (le_max_left _ _)

lemma applyQueueOp_limit (q : CachePriorityQueue α) (op : QueueOp α) :
    (applyQueueOp q op).limit = q.limit := by
  cases op with
  | push x => exact push_limit q x
  | clear => rfl

lemma applyQueueOp_len (q : CachePriorityQueue α) (op : QueueOp α)
    (h : q.heap.length ≤ max q.limit 1) :
    (applyQueueOp q op).heap.length ≤ max q.limit 1 := by
  cases op with
  | push x => exact push_len_le_max q x h
  | clear =>
    show ([] : List α).length ≤ max q.limit 1
    simp

lemma foldl_applyQueueOp_invariant :
    ∀ (ops : List (QueueOp α)) (q : CachePriorityQueue α),
      q.heap.length ≤ max q.limit 1 →
      (List.foldl applyQueueOp q ops).limit = q.limit
        ∧ (List.foldl applyQueueOp q ops).heap.length ≤ max q.limit 1 := by
  intro ops
  induction ops with
  | nil => intro q h; exact ⟨rfl, h⟩
  | cons op ops ih =>
    intro q h
    have h1 := applyQueueOp_limit q op
    have h2 := applyQueueOp_len q op h
    have h3 := ih (applyQueueOp q op) (by rw [h1]; exact h2)
    rw [h1] at h3
    exact ⟨h3.1, h3.2⟩

end QueueLenProofs

/-- C4 amended: after any sequence of push and clear operations on a queue
created with limit K, len is at most max K 1; for K >= 1 this is the
claimed bound len <= K, while for the edge case K = 0 a push can reach
length 1 (see the counterexample).  Moreover with_capacity with a valid
capacity produces the same initial state as new. -/
theorem cachePriorityQueue_len_le_max_limit_one {α : Type} [LinearOrder α]
    (K : Nat) (ops : List (QueueOp α)) :
    (List.foldl applyQueueOp (CachePriorityQueue.new K) ops).len ≤ max K 1
    ∧ ∀ capacity : Nat, capacity ≤ K →
        CachePriorityQueue.with_capacity capacity K
          = some (CachePriorityQueue.new K : CachePriorityQueue α) := by
  constructor
  · exact (foldl_applyQueueOp_invariant ops (CachePriorityQueue.new K) (by simp [CachePriorityQueue.new])).2
  · intro capacity hc
    simp [CachePriorityQueue.with_capacity, hc, CachePriorityQueue.new]

/-- Witness for C4 at a concrete input: limit 0, operations push 5, clear,
push 7, and with_capacity 0 0. -/
theorem cachePriorityQueue_len_le_max_limit_one_witness :
    (List.foldl applyQueueOp (CachePriorityQueue.new 0)
        [QueueOp.push (5 : Nat), QueueOp.clear, QueueOp.push 7]).len ≤ max 0 1
    ∧ CachePriorityQueue.with_capacity 0 0
        = some (CachePriorityQueue.new 0 : CachePriorityQueue Nat) :=
  ⟨(cachePriorityQueue_len_le_max_limit_one 0
      [QueueOp.push (5 : Nat), QueueOp.clear, QueueOp.push 7]).1,
    (cachePriorityQueue_len_le_max_limit_one 0 ([] : List (QueueOp Nat))).2 0 (by decide)⟩

/-! ## Theorems about the cache entry ordering (claim C2) -/

/-- C2: for every pair of CacheFileInfo values, cmp equals the
lexicographic comparison of the tuples (max(expiry, modified),
max(accessed, modified), modified, header_path), each component compared
ascending, the earliest differing component deciding the result. -/
theorem cacheFileInfo_cmp_eq_lex_tuple (a b : CacheFileInfo) :
    CacheFileInfo.cmp a b = CacheFileInfo.cmpSpecTuple a b := by
  unfold CacheFileInfo.cmp CacheFileInfo.cmpSpecTuple
  cases h1 : compare (max a.header_info.expiry a.modified)
      (max b.header_info.expiry b.modified) <;>
    cases h2 : compare (max a.accessed a.modified) (max b.accessed b.modified) <;>
      cases h3 : compare a.modified b.modified <;>
        simp [Ordering.then]

/-! ## Theorems about the scan_folder header branch (claim C3) -/

/-- C3 counterexample: while scanning inside a vary directory
(in_vary = true), a Vary-format header does not trigger deletion of its
sibling data file, contradicting the claim that the deletion happens
regardless of the in_vary flag. -/
theorem scanHeaderBranch_in_vary_counterexample :
    (scanHeaderBranch Format.vary true false
        (vdirProtects false false 0)).dataDeleteAttempted = false := rfl

/-- C3 amended: deletion of the sibling data file is attempted exactly
when the scan is not inside a vary directory and the entry format is
Vary; the desperate flag and the vary-directory state play no role in
this particular decision. -/
theorem scanHeaderBranch_data_delete_iff (format : Format)
    (in_vary desperate vdirProtect : Bool) :
    (scanHeaderBranch format in_vary desperate vdirProtect).dataDeleteAttempted
      = (!in_vary && decide (format = Format.vary)) := by
  cases format <;> cases in_vary <;> cases desperate <;> cases vdirProtect <;> rfl

/-! ## Theorems about the parallel chunking (claim C9) -/

/-- C9 counterexample: with 5 top-level entries and 2 jobs the code
computes chunk size 3 = 5 / 2 + 1 with floor division, not
4 = ceil(5 / 2) + 1 as the claim states. -/
theorem chunk_size_not_ceil_counterexample :
    chunk_size 5 2 = 3 ∧ ceilDiv 5 2 + 1 = 4
      ∧ chunk_size 5 2 ≠ ceilDiv 5 2 + 1 := by decide

/-- C9 amended: the chunk size equals floor(len / jobs) + 1, and this
still partitions the folder list into at most jobs consecutive chunks. -/
theorem chunk_size_floor_div_chunks_le_jobs (foldersLen jobs : Nat) (hj : 1 ≤ jobs) :
    chunk_size foldersLen jobs = foldersLen / jobs + 1
    ∧ ceilDiv foldersLen (chunk_size foldersLen jobs) ≤ jobs := by
  refine ⟨rfl, ?_⟩
  have hj0 : 0 < jobs := hj
  have h1 : foldersLen < (foldersLen / jobs + 1) * jobs :=
    (Nat.div_lt_iff_lt_mul hj0).mp (Nat.lt_succ_self _)
  unfold ceilDiv chunk_size
  obtain ⟨q, hq⟩ : ∃ q, foldersLen / jobs = q := ⟨_, rfl⟩
  rw [hq] at h1 ⊢
  have h2 : foldersLen + (q + 1) - 1 = foldersLen + q := by omega
  rw [h2]
  have h3 : foldersLen + q < (jobs + 1) * (q + 1) := by nlinarith
  exact Nat.lt_succ_iff.mp ((Nat.div_lt_iff_lt_mul (Nat.succ_pos _)).mpr h3)

/-- Witness for C9 amended at the concrete input len 5, jobs 2. -/
theorem chunk_size_floor_div_chunks_le_jobs_witness :
    chunk_size 5 2 = 5 / 2 + 1 ∧ ceilDiv 5 (chunk_size 5 2) ≤ 2 :=
  chunk_size_floor_div_chunks_le_jobs 5 2 (by decide)

/-! ## Theorems about the recency-guarded deletion (claims C7 and C10) -/

/-- C7: when delete_folder_if_not_recent reaches the remove_dir call (the
entry is an old enough directory without subfolders) and the call fails
with ENOTEMPTY, the function returns Ok(false): neither an error nor a
deletion, and count_folder of Ok(false) increments no counter.  Any other
remove_dir error is returned as an error. -/
theorem delete_folder_enotempty_ok_false (md : Metadata) (now : Int) (seconds : Nat)
    (hdir : md.is_dir = true) (hnl : md.nlink ≤ 2)
    (hm : oldEnough now md.modified seconds) (ha : oldEnough now md.accessed seconds) :
    delete_folder_if_not_recent md now seconds (RmOutcome.err ENOTEMPTY)
        = ⟨true, Except.ok false⟩
    ∧ (∀ e : Int, e ≠ ENOTEMPTY →
        delete_folder_if_not_recent md now seconds (RmOutcome.err e)
          = ⟨true, Except.error e⟩)
    ∧ (∀ st : Stats, Stats.count_folder st (Except.ok false : Except Int Bool) = st) := by
  have hnl2 : ¬ (2 < md.nlink) := by omega
  obtain ⟨hm1, hm2⟩ := hm
  obtain ⟨ha1, ha2⟩ := ha
  refine ⟨?_, ?_, ?_⟩
  · simp [delete_folder_if_not_recent, hdir, hnl2, duration_since, hm1, ha1, hm2, ha2]
  · intro e he
    simp [delete_folder_if_not_recent, hdir, hnl2, duration_since, hm1, ha1, hm2, ha2, he]
  · intro st
    rfl

/-- Witness for C7 at a concrete input: an empty directory last touched at
the epoch, now 400 seconds later, threshold 300 seconds; the other error
code exercised is EACCES = 13. -/
theorem delete_folder_enotempty_ok_false_witness :
    delete_folder_if_not_recent ⟨false, true, 2, 0, 0⟩ 400000000000 300
        (RmOutcome.err ENOTEMPTY) = ⟨true, Except.ok false⟩
    ∧ delete_folder_if_not_recent ⟨false, true, 2, 0, 0⟩ 400000000000 300
        (RmOutcome.err 13) = ⟨true, Except.error 13⟩ := by
  have h := delete_folder_enotempty_ok_false ⟨false, true, 2, 0, 0⟩ 400000000000 300
    rfl (by decide) (by decide) (by decide)
  exact ⟨h.1, h.2.1 13 (by decide)⟩

/-- C10: whenever the mtime or the atime of the entry lies in the future
of now (duration_since fails) or within the age threshold,
delete_file_if_not_recent and delete_folder_if_not_recent return
Ok(false) without attempting any removal, whatever the removal outcome
would have been. -/
theorem not_recent_no_removal (md : Metadata) (now : Int) (seconds : Nat) (rm : RmOutcome)
    (h : ¬ oldEnough now md.modified seconds ∨ ¬ oldEnough now md.accessed seconds) :
    delete_file_if_not_recent md now seconds rm = ⟨false, Except.ok false⟩
    ∧ delete_folder_if_not_recent md now seconds rm = ⟨false, Except.ok false⟩ := by
  constructor
  · unfold delete_file_if_not_recent
    by_cases hf : md.is_file
    case neg => simp [hf]
    case pos =>
      simp only [hf, if_true]
      by_cases hm1 : md.modified ≤ now
      case neg => simp [duration_since, hm1]
      case pos =>
        by_cases hm2 : seconds ≤ durationAsSecs (now - md.modified).toNat
        case neg => simp [duration_since, hm1, hm2]
        case pos =>
          rcases h with hcon | hacc
          · exact absurd ⟨hm1, hm2⟩ hcon
          · by_cases ha1 : md.accessed ≤ now
            case neg => simp [duration_since, hm1, hm2, ha1]
            case pos =>
              by_cases ha2 : seconds ≤ durationAsSecs (now - md.accessed).toNat
              case pos => exact absurd ⟨ha1, ha2⟩ hacc
              case neg => simp [duration_since, hm1, hm2, ha1, ha2]
  · unfold delete_folder_if_not_recent
    by_cases hd : md.is_dir
    case neg => simp [hd]
    case pos =>
      simp only [hd, if_true]
      by_cases hnl : 2 < md.nlink
      case pos => simp [hnl]
      case neg =>
        simp only [hnl, if_false]
        by_cases hm1 : md.modified ≤ now
        case neg => simp [duration_since, hm1]
        case pos =>
          by_cases hm2 : seconds ≤ durationAsSecs (now - md.modified).toNat
          case neg => simp [duration_since, hm1, hm2]
          case pos =>
            rcases h with hcon | hacc
            · exact absurd ⟨hm1, hm2⟩ hcon
            · by_cases ha1 : md.accessed ≤ now
              case neg => simp [duration_since, hm1, hm2, ha1]
              case pos =>
                by_cases ha2 : seconds ≤ durationAsSecs (now - md.accessed).toNat
                case pos => exact absurd ⟨ha1, ha2⟩ hacc
                case neg => simp [duration_since, hm1, hm2, ha1, ha2]

/-- Witness for C10 at a concrete input: a file dated 10 ns after the
epoch examined at now = 5 ns, i.e. a future mtime, with threshold 0. -/
theorem not_recent_no_removal_witness :
    delete_file_if_not_recent ⟨true, false, 2, 10, 0⟩ 5 0 RmOutcome.ok
        = ⟨false, Except.ok false⟩
    ∧ delete_folder_if_not_recent ⟨true, false, 2, 10, 0⟩ 5 0 RmOutcome.ok
        = ⟨false, Except.ok false⟩ :=
  not_recent_no_removal ⟨true, false, 2, 10, 0⟩ 5 0 RmOutcome.ok (Or.inl (by decide))

/-! ## Theorems about header parsing (claim C6) -/

/-- C6: parse fails with the unknown-format error exactly when the 4-byte
native-endian tag can be read and is neither 5 nor 6, and the error then
carries that tag; for tag 5 it reads 8 further bytes as the native-endian
u64 microsecond expiry, and for tag 6 it reads
sizeof(c_int) + 2 sizeof(usize) + 16 further bytes and takes the last 8
of them as the native-endian u64 microsecond expiry. -/
theorem parse_format_characterization (bs : List Nat) :
    ((∃ t, parse bs = Except.error (ParseError.unknownFormat t)) ↔
      (4 ≤ bs.length ∧ bytesToNatLE (List.take 4 bs) ≠ 5
        ∧ bytesToNatLE (List.take 4 bs) ≠ 6))
    ∧ (∀ t, parse bs = Except.error (ParseError.unknownFormat t) →
        t = bytesToNatLE (List.take 4 bs))
    ∧ (4 ≤ bs.length → bytesToNatLE (List.take 4 bs) = 5 →
        4 + 8 ≤ bs.length →
        parse bs = Except.ok ⟨Format.vary,
          (bytesToNatLE (List.take 8 (List.drop 4 bs)) : Int)⟩)
    ∧ (4 ≤ bs.length → bytesToNatLE (List.take 4 bs) = 6 →
        4 + diskBufferLen ≤ bs.length →
        parse bs = Except.ok ⟨Format.disk,
          (bytesToNatLE (List.drop (diskBufferLen - 8)
            (List.take diskBufferLen (List.drop 4 bs))) : Int)⟩) := by
  by_cases h4 : 4 ≤ bs.length
  · by_cases h5 : bytesToNatLE (List.take 4 bs) = 5
    · refine ⟨?_, ?_, ?_, ?_⟩
      · by_cases h8 : 8 ≤ bs.length - 4 <;>
          simp [parse, read_exact, formatTryFrom, h4, h5, h8]
      · intro t ht
        by_cases h8 : 8 ≤ bs.length - 4 <;>
          simp [parse, read_exact, formatTryFrom, h4, h5, h8] at ht
      · intro _ _ h8
        have h8x : 8 ≤ bs.length - 4 := by omega
        simp [parse, read_exact, formatTryFrom, h4, h5, h8x]
      · intro _ h6 _
        rw [h5] at h6
        exact absurd h6 (by decide)
    · by_cases h6 : bytesToNatLE (List.take 4 bs) = 6
      · refine ⟨?_, ?_, ?_, ?_⟩
        · by_cases h36 : diskBufferLen ≤ bs.length - 4 <;>
            simp [parse, read_exact, formatTryFrom, h4, h5, h6, h36]
        · intro t ht
          by_cases h36 : diskBufferLen ≤ bs.length - 4 <;>
            simp [parse, read_exact, formatTryFrom, h4, h5, h6, h36] at ht
        · intro _ h5x _
          exact absurd h5x h5
        · intro _ _ h36
          have h36x : diskBufferLen ≤ bs.length - 4 := by
            have : diskBufferLen = 36 := rfl
            omega
          simp [parse, read_exact, formatTryFrom, h4, h5, h6, h36x]
      · refine ⟨?_, ?_, ?_, ?_⟩
        · simp [parse, read_exact, formatTryFrom, h4, h5, h6]
        · intro t ht
          simp [parse, read_exact, formatTryFrom, h4, h5, h6] at ht
          omega
        · intro _ h5x _
          exact absurd h5x h5
        · intro _ h6x _
          exact absurd h6x h6
  · refine ⟨?_, ?_, ?_, ?_⟩
    · simp [parse, read_exact, h4]
    · intro t ht
      simp [parse, read_exact, h4] at ht
    · intro h4x
      exact absurd h4x h4
    · intro h4x
      exact absurd h4x h4

/-- Witness for C6 at a concrete input: a Vary header with tag 5 and
expiry 1 microsecond after the epoch. -/
theorem parse_format_characterization_witness :
    parse [5, 0, 0, 0, 1, 0, 0, 0, 0, 0, 0, 0] = Except.ok ⟨Format.vary, 1⟩ := by
  have h := (parse_format_characterization [5, 0, 0, 0, 1, 0, 0, 0, 0, 0, 0, 0]).2.2.1
    (by decide) (by decide) (by decide)
  simpa using h

/-! ## Theorems about SizeSpec.value (claim C8) -/

/-- C8 counterexample: Percentage(29).value(100) evaluates to 28, because
29 / 100.0 rounds up to the nearest double and the subsequent product
rounds down below 29 before the truncating cast, while the exact rational
floor of 29 * 100 / 100 is 29. -/
theorem sizeSpec_value_percentage_not_exact_floor :
    SizeSpec.value (SizeSpec.Percentage (Fr.ofInt 29)) 100 = 28
    ∧ 29 * 100 / 100 = 29
    ∧ SizeSpec.value (SizeSpec.Percentage (Fr.ofInt 29)) 100 ≠ 29 * 100 / 100 := by
  decide

/-- C8 amended: Absolute(n).value(t) equals n for every total t.  For
Percentage(p), value(t) is the u64-truncating IEEE-754 binary64
evaluation of p / 100 * t, which can differ from the exact rational
floor(p * t / 100): at p = 29, t = 100 it yields 28, not 29.  The double
evaluation agrees with the exact floor on the test points of the source
(10 percent of 10000, 10 and 1, and 0 percent of 10000000). -/
theorem sizeSpec_value_absolute_and_f64_percentage :
    (∀ (n : Nat) (total : Nat), SizeSpec.value (SizeSpec.Absolute n) total = n)
    ∧ SizeSpec.value (SizeSpec.Percentage (Fr.ofInt 29)) 100 = 28
    ∧ SizeSpec.value (SizeSpec.Percentage (Fr.ofInt 10)) 10000 = 1000
    ∧ SizeSpec.value (SizeSpec.Percentage (Fr.ofInt 10)) 10 = 1
    ∧ SizeSpec.value (SizeSpec.Percentage (Fr.ofInt 10)) 1 = 0
    ∧ SizeSpec.value (SizeSpec.Percentage (Fr.ofInt 0)) 10000000 = 0 :=
  ⟨fun _ _ => rfl, by decide, by decide, by decide, by decide, by decide⟩

end Fhcc
